import Mathlib

/-!
# Verification of the cycle-prediction data pipeline

Shallow embedding of the data-preparation and training scripts of the
`aunt-flowrence` repository (`ml/scripts/build_dataset.py`,
`ml/scripts/train_lstm.py`) and proofs of the specification claims
about them.

Modelling conventions:
* A dataframe cell is `Option Val`: `none` models a missing value (NaN),
  `Val.num q` a value `pandas.to_numeric` parses to the number `q`
  (floats are modelled by exact rationals), `Val.str s` a present value
  that does not parse as a number.
* A dataframe row is a total function from column names to cells; the
  dataframe records the list of its column names.  Column selection
  restricts the column list; row functions are total so column access
  never fails structurally (column presence is carried by hypotheses
  where a claim needs it).
* `pandas.sort_values` is modelled by a stable insertion sort on the
  lexicographic key of the sort columns, with missing values ordered
  last (pandas `na_position` default).
* Machine floats are modelled by exact rationals / reals, except where a
  claim is sensitive to rounding: the train/val/test boundary
  computation `int(0.7 * n)` of the trainer is modelled exactly by
  round-to-nearest-even binary64 arithmetic over `ℚ`.
-/

/-- A present dataframe value: numeric (after `pandas.to_numeric` parsing,
floats modelled by exact rationals) or non-numeric. -/
inductive Val where
  | num (q : ℚ)
  | str (s : String)
deriving DecidableEq

/-- A dataframe cell: `none` is a missing value (NaN). -/
abbrev Cell := Option Val

/-- A dataframe row: a total assignment of cells to column names. -/
abbrev Row := String → Cell

/-- A dataframe: a list of column names plus a list of rows. -/
structure DF where
  cols : List String
  rows : List Row

instance : Inhabited DF := ⟨⟨[], []⟩⟩

/-- `USER_COL` of `build_dataset.py`. -/
def USER_COL : String := "ClientID"

/-- `CYCLE_NUM_COL` of `build_dataset.py`. -/
def CYCLE_NUM_COL : String := "CycleNumber"

/-- `TARGET_COL` of `build_dataset.py`. -/
def TARGET_COL : String := "LengthofCycle"

/-- `FEATURE_COLS` of `build_dataset.py`. -/
def FEATURE_COLS : List String :=
  [ "LengthofCycle"
  , "MeanCycleLength"
  , "EstimatedDayofOvulation"
  , "LengthofLutealPhase"
  , "FirstDayofHigh"
  , "TotalNumberofHighDays"
  , "TotalHighPostPeak"
  , "TotalNumberofPeakDays"
  , "TotalDaysofFertility"
  , "TotalFertilityFormula"
  , "LengthofMenses"
  , "MeanMensesLength"
  , "MeanBleedingIntensity"
  , "NumberofDaysofIntercourse"
  , "IntercourseInFertileWindow"
  , "UnusualBleeding"
  , "PhasesBleeding"
  , "Age"
  , "BMI" ]

/-- `SEQ_LEN` of `build_dataset.py`. -/
def SEQ_LEN : ℕ := 3

/-- Order on present values used when sorting: numbers are ordered
numerically, strings lexicographically; mixed pairs put numbers first. -/
def vle : Val → Val → Bool
  | .num a, .num b => a ≤ b
  | .num _, .str _ => true
  | .str _, .num _ => false
  | .str a, .str b => a ≤ b

/-- Order on cells used when sorting: missing values (NaN) sort last,
matching the pandas `na_position` default. -/
def cle : Cell → Cell → Bool
  | some a, some b => vle a b
  | some _, none => true
  | none, some _ => false
  | none, none => true

/-- Lexicographic order on lists of cells (the composite sort key of
`sort_values` on several columns). -/
def cellListLe : List Cell → List Cell → Bool
  | [], _ => true
  | _ :: _, [] => false
  | a :: as, b :: bs => if a = b then cellListLe as bs else cle a b

/-- The `sort_values` key of a row for a given list of sort columns. -/
def keyOf (sc : List String) (r : Row) : List Cell := sc.map r

/-- Row comparison used by the model of `sort_values(sort_cols)`. -/
def RowLe (sc : List String) (a b : Row) : Prop :=
  cellListLe (keyOf sc a) (keyOf sc b) = true

instance (sc : List String) : DecidableRel (RowLe sc) := by
  intro a b; unfold RowLe; infer_instance

/-- Helper of `dedupFirst`: drop elements already seen. -/
def dedupFirstGo (seen : List String) : List String → List String
  | [] => []
  | a :: l => if a ∈ seen then dedupFirstGo seen l
              else a :: dedupFirstGo (a :: seen) l

/-- Python `dict.fromkeys` de-duplication: keeps the first occurrence of
each element, preserving order. -/
def dedupFirst (l : List String) : List String := dedupFirstGo [] l

/-- `desired_cols` of `preprocess`. -/
def desired_cols : List String := [USER_COL, CYCLE_NUM_COL, TARGET_COL] ++ FEATURE_COLS

/-- `keep_cols` of `preprocess`: desired columns that are present, first
occurrences only. -/
def keep_cols (df : DF) : List String :=
  dedupFirst (desired_cols.filter (· ∈ df.cols))

/-- `numeric_cols` of `preprocess`: feature and target columns that were
kept, first occurrences only. -/
def numeric_cols_of (cols : List String) : List String :=
  dedupFirst ((FEATURE_COLS ++ [TARGET_COL]).filter (· ∈ cols))

/-- `pd.to_numeric(values, errors="coerce")` on one cell: numeric values
survive, everything else becomes NaN. -/
def coerceCell : Cell → Cell
  | some (.num q) => some (.num q)
  | _ => none

/-- Functional update of a row at one column (the effect of a
single-column assignment `df[col] = ...` on each row). -/
def updateRow (r : Row) (c : String) (v : Cell) : Row :=
  fun c' => if c' = c then v else r c'

/-- Apply a per-column cell transformation to every row, one column at a
time (a loop of single-column assignments). -/
def applyCols (f : String → Cell → Cell) (cs : List String) (rows : List Row) : List Row :=
  cs.foldl (fun rs c => rs.map (fun r => updateRow r c (f c (r c)))) rows

/-- The numeric value of a cell, if any. -/
def cellNum : Cell → Option ℚ
  | some (.num q) => some q
  | _ => none

/-- `pandas` median of a list of numbers: middle element of the sorted
list, or the mean of the two middle elements for even length; `none` for
the empty list (the median of an all-NaN column is NaN). -/
def medianQ (l : List ℚ) : Option ℚ :=
  let s := l.insertionSort (· ≤ ·)
  let m := s.length
  if m = 0 then none
  else if m % 2 = 1 then some (s.getD (m / 2) 0)
  else some ((s.getD (m / 2 - 1) 0 + s.getD (m / 2) 0) / 2)

/-- The median of a (coerced) numeric column, skipping NaN as pandas
does. -/
def colMedian (rows : List Row) (c : String) : Option ℚ :=
  medianQ (rows.filterMap (fun r => cellNum (r c)))

/-- `fillna` with a possibly-missing fill value: NaN cells receive the
column median when it exists; an all-NaN column stays NaN. -/
def fillCell (med : Option ℚ) : Cell → Cell
  | none => match med with
            | some m => some (.num m)
            | none => none
  | some v => some v

/-- Stage 1 of `preprocess`: `df = df[keep_cols].copy()`. -/
def selectCopy (df : DF) : DF :=
  { cols := keep_cols df, rows := df.rows }

/-- Stage 2 of `preprocess`: the `pd.to_numeric` coercion loop over the
numeric columns. -/
def coerceStage (df : DF) : DF :=
  { df with rows := applyCols (fun _ v => coerceCell v) (numeric_cols_of df.cols) df.rows }

/-- Stage 3 of `preprocess`: median imputation
`df[numeric_cols] = num_df.fillna(medians)`. -/
def fillStage (df : DF) : DF :=
  { df with rows := applyCols (fun c v => fillCell (colMedian df.rows c) v)
                              (numeric_cols_of df.cols) df.rows }

/-- `required_for_row` of `preprocess`. -/
def required_for_row (cols : List String) : List String :=
  [USER_COL, CYCLE_NUM_COL, TARGET_COL].filter (· ∈ cols)

/-- Stage 4 of `preprocess`: `df.dropna(subset=required_for_row)`. -/
def dropnaStage (df : DF) : DF :=
  { df with rows := df.rows.filter (fun r => (required_for_row df.cols).all (fun c => (r c).isSome)) }

/-- `sort_cols` of `preprocess` and `build_sequences`. -/
def sort_cols_of (cols : List String) : List String :=
  [USER_COL, CYCLE_NUM_COL].filter (· ∈ cols)

/-- Stage 5 of `preprocess`: `df.sort_values(sort_cols)` (no-op when no
sort column is present, as in the source). -/
def sortStage (df : DF) : DF :=
  { df with rows := df.rows.insertionSort (RowLe (sort_cols_of df.cols)) }

/-- `preprocess` of `build_dataset.py`: select and copy the desired
columns, coerce the numeric ones, impute missing numeric values with
column medians, drop rows missing the required identifier/target
columns, and sort by user and cycle number. -/
def preprocess (df : DF) : DF :=
  sortStage (dropnaStage (fillStage (coerceStage (selectCopy df))))

/-- `build_sequences` of `build_dataset.py`: re-sort, slide a window of
length `SEQ_LEN` with stride 1 over the rows, pair each window of
feature rows with the target value of the row immediately after it,
skipping windows whose target is NaN; error out when there are too few
rows or no sample was built. -/
def featRow (r : Row) : List (Option ℚ) :=
  FEATURE_COLS.map (fun c => cellNum (r c))

/-- One sample of `build_sequences`: `(X_seq, y_val)`. -/
abbrev Sample := List (List (Option ℚ)) × ℚ

/-- The body of the `for start in range(0, n_rows - SEQ_LEN)` loop of
`build_sequences`: the sample built at `start`, or `none` when the
target after the window is NaN. -/
def sampleAt (feat : List (List (Option ℚ))) (target : List (Option ℚ)) (start : ℕ) :
    Option Sample :=
  match target.getD (start + SEQ_LEN) none with
  | none => none
  | some y => some ((feat.drop start).take SEQ_LEN, y)

/-- The `df.sort_values(sort_cols)` at the top of `build_sequences`. -/
def sortedRows (df : DF) : List Row :=
  df.rows.insertionSort (RowLe (sort_cols_of df.cols))

/-- `feat = df[FEATURE_COLS].to_numpy(...)` of `build_sequences`. -/
def featMatrix (df : DF) : List (List (Option ℚ)) :=
  (sortedRows df).map featRow

/-- `target = df[TARGET_COL].to_numpy(...)` of `build_sequences`. -/
def targetVec (df : DF) : List (Option ℚ) :=
  (sortedRows df).map (fun r => cellNum (r TARGET_COL))

/-- `build_sequences` of `build_dataset.py`. -/
def build_sequences (df : DF) :
    Except String (List (List (List (Option ℚ))) × List ℚ) :=
  let feat := featMatrix df
  let target := targetVec df
  let n_rows := (sortedRows df).length
  if n_rows ≤ SEQ_LEN then
    .error "Not enough rows for seq_len"
  else
    let samples := (List.range (n_rows - SEQ_LEN)).filterMap (sampleAt feat target)
    if samples.isEmpty then
      .error "No sequences built (this should not happen now)."
    else
      .ok (samples.map Prod.fst, samples.map Prod.snd)

lemma test_medianQ : medianQ [3, 1, 2] = some 2 := by decide

/-- A test row whose every cell holds the number `q`. -/
def constRow (q : ℚ) : Row := fun _ => some (.num q)

/-- A small concrete dataframe: four rows, all columns present. -/
def testDF : DF :=
  { cols := [USER_COL, CYCLE_NUM_COL] ++ FEATURE_COLS
  , rows := [constRow 1, constRow 2, constRow 3, constRow 4] }

lemma test_build_y :
    (match build_sequences testDF with
     | .ok p => p.2
     | .error _ => []) = [4] := by decide

lemma test_build_len :
    (match build_sequences testDF with
     | .ok p => (p.1.length, p.1.map List.length, (p.1.headD []).map List.length)
     | .error _ => (0, [], [])) = (1, [3], [19, 19, 19]) := by decide

/-- `numpy.reshape` of a flat list of rows to a list of `T`-row chunks. -/
def chunksOf {α : Type} (T : ℕ) (l : List α) : List (List α) :=
  if h : T = 0 ∨ l.length = 0 then []
  else l.take T :: chunksOf T (l.drop T)
termination_by l.length
decreasing_by
  rw [List.length_drop]
  exact Nat.sub_lt (Nat.pos_of_ne_zero (fun hl => h (Or.inr hl)))
    (Nat.pos_of_ne_zero (fun hT => h (Or.inl hT)))

/-- `numpy` mean of a vector (`flat.mean(axis=0)` per column). -/
noncomputable def listMean (l : List ℝ) : ℝ := l.sum / l.length

/-- `numpy` population variance of a vector. -/
noncomputable def listVar (l : List ℝ) : ℝ :=
  ((l.map (fun v => (v - listMean l) ^ 2)).sum) / l.length

/-- `numpy` population standard deviation of a vector
(`flat.std(axis=0)` per column). -/
noncomputable def listStd (l : List ℝ) : ℝ := Real.sqrt (listVar l)

/-- Column `f` of a list of rows (`flat[:, f]`). -/
def colOf (rows : List (List ℝ)) (f : ℕ) : List ℝ :=
  rows.map (fun r => r.getD f 0)

/-- `normalize_features` of `build_dataset.py`: flatten the `(N, T, F)`
tensor to `(N*T, F)`, compute the per-feature mean and standard
deviation, set zero entries of the standard deviation to one
(`std[std == 0] = 1.0`), z-score every entry, and reshape back.  The
`astype(np.float32)` casts are the identity in this exact-arithmetic
model.  Returns `(X_norm, mean, std)` with `std` the clamped vector, as
in the source. -/
noncomputable def normalize_features (X : List (List (List ℝ))) :
    List (List (List ℝ)) × List ℝ × List ℝ :=
  let T := (X.headD []).length
  let F := ((X.headD []).headD []).length
  let flat := X.flatten
  let mean := (List.range F).map (fun f => listMean (colOf flat f))
  let std := ((List.range F).map (fun f => listStd (colOf flat f))).map
    (fun s => if s = 0 then 1 else s)
  let flat_norm := flat.map
    (fun r => (r.zip (mean.zip std)).map (fun p => (p.1 - p.2.1) / p.2.2))
  (chunksOf T flat_norm, mean, std)

/-!
## Exact binary64 model for the trainer's split boundaries

`train_lstm.py` computes `n_train = int(0.7 * n)` and
`n_val = int(0.15 * n)` in Python floats (IEEE-754 binary64).  The
following functions model that computation exactly over `ℚ`:
`roundDouble` rounds a positive rational to 53 significant bits with
round-to-nearest, ties to even (the rounding of every normal-range
binary64 operation; subnormals and overflow never arise here), the
literals `0.7` and `0.15` are the rounded values of `7/10` and
`15/100`, the products are rounded once (`n` itself converts exactly
for `n < 2^53`), and `int` truncates, which is the floor on these
nonnegative values.
-/

/-- Round a rational to an integer, round-half-to-even. -/
def roundHalfEven (q : ℚ) : ℤ :=
  if q - ⌊q⌋ < 1 / 2 then ⌊q⌋
  else if 1 / 2 < q - ⌊q⌋ then ⌊q⌋ + 1
  else if ⌊q⌋ % 2 = 0 then ⌊q⌋ else ⌊q⌋ + 1

/-- Round a rational to the nearest binary64 value (normal range): with
`e` the exponent of `|q|`, round the 53-bit significand `|q| * 2^(52-e)`
half-to-even and scale back. -/
def roundDouble (q : ℚ) : ℚ :=
  if q = 0 then 0
  else if q < 0 then
    -((roundHalfEven (|q| * (2 : ℚ) ^ (52 - Int.log 2 |q|)) : ℚ) *
      (2 : ℚ) ^ (Int.log 2 |q| - 52))
  else
    (roundHalfEven (|q| * (2 : ℚ) ^ (52 - Int.log 2 |q|)) : ℚ) *
      (2 : ℚ) ^ (Int.log 2 |q| - 52)

/-- The Python float literal `0.7`. -/
def float0_7 : ℚ := roundDouble (7 / 10)

/-- The Python float literal `0.15`. -/
def float0_15 : ℚ := roundDouble (15 / 100)

/-- `n_train = int(0.7 * n)` of `load_data`. -/
def n_train_of (n : ℕ) : ℕ := (⌊roundDouble (float0_7 * n)⌋).toNat

/-- `n_val = int(0.15 * n)` of `load_data`. -/
def n_val_of (n : ℕ) : ℕ := (⌊roundDouble (float0_15 * n)⌋).toNat

/-- The train/validation/test split of `load_data` in `train_lstm.py`:
positional slices `X[:n_train]`, `X[n_train:n_train+n_val]`,
`X[n_train+n_val:]` and the same slices of `y` (Python slices clamp out
of range bounds, as `take`/`drop` do). -/
def load_data_split {α β : Type} (X : List α) (y : List β) :
    (List α × List β) × (List α × List β) × (List α × List β) :=
  let n := X.length
  let nt := n_train_of n
  let nv := n_val_of n
  ((X.take nt, y.take nt),
   ((X.drop nt).take nv, (y.drop nt).take nv),
   (X.drop (nt + nv), y.drop (nt + nv)))

/-- The keys `load_data` reads from the archive
(`data["X"]`, ..., `data["seq_len"]`). -/
def trainer_read_keys : List String :=
  ["X", "y", "mean", "std", "feature_cols", "seq_len"]

/-!
## Heap model of `preprocess` and the builder's file operations

`preprocess` receives a mutable dataframe object.  To state that it
does not mutate its argument we track dataframe objects in an explicit
heap (a list of dataframes indexed by position): `df[keep_cols].copy()`
allocates a fresh object, the column assignments and `fillna` mutate
that copy in place, and `dropna`/`sort_values` allocate new objects.
-/

/-- Heap-level model of `preprocess`: takes the heap and the index of
the argument dataframe, returns the new heap and the index of the
result. -/
def preprocessHeap (h : List DF) (i : ℕ) : List DF × ℕ :=
  let df := h.getD i default
  let j := h.length
  let h1 := h ++ [selectCopy df]
  let h2 := h1.set j (coerceStage (h1.getD j default))
  let h3 := h2.set j (fillStage (h2.getD j default))
  let k := h3.length
  let h4 := h3 ++ [dropnaStage (h3.getD j default)]
  let m := h4.length
  let h5 := h4 ++ [sortStage (h4.getD k default)]
  (h5, m)

/-- A file-system operation of the builder script. -/
inductive FsOp where
  | read (p : String)
  | mkdir (p : String)
  | write (p : String)
deriving DecidableEq

/-- `RAW_PATH` of `build_dataset.py`, relative to the `ml` directory. -/
def RAW_PATH : String := "ml/data/raw/menstrual_cycle_data.csv"

/-- `OUT_PATH` of `build_dataset.py`, relative to the `ml` directory. -/
def OUT_PATH : String := "ml/data/processed/cycle_sequences.npz"

/-- The file operations performed by `main` of `build_dataset.py`:
`pd.read_csv(RAW_PATH)`, `OUT_PATH.parent.mkdir(...)`,
`np.savez(OUT_PATH, ...)`. -/
def mainTrace : List FsOp :=
  [.read RAW_PATH, .mkdir "ml/data/processed", .write OUT_PATH]

/-- The paths written by a trace. -/
def writesOf (t : List FsOp) : List String :=
  t.filterMap (fun op => match op with | .write p => some p | _ => none)

/-!
## The archive written by `main` of `build_dataset.py`
-/

/-- A serialized `numpy` value in the archive. -/
inductive NpValue where
  | t3 (x : List (List (List ℝ)))
  | v1 (x : List ℝ)
  | vs (x : List String)
  | vi (x : List ℤ)

/-- Whether a windowed tensor of the builder contains no NaN. -/
def okT3 (X : List (List (List (Option ℚ)))) : Bool :=
  X.all (fun p => p.all (fun r => r.all Option.isSome))

/-- Cast a NaN-free windowed tensor to the real-valued tensor model
(NaN cells, excluded by `okT3`, default to `0`). -/
noncomputable def realT3 (X : List (List (List (Option ℚ)))) : List (List (List ℝ)) :=
  X.map (fun p => p.map (fun r => r.map (fun c => ((c.getD 0 : ℚ) : ℝ))))

/-- The keyword arguments of the `np.savez(OUT_PATH, ...)` call in
`main`, given the normalized tensor inputs. -/
noncomputable def archiveOf (Xr : List (List (List ℝ))) (y : List ℚ) :
    List (String × NpValue) :=
  [ ("X", .t3 (normalize_features Xr).1)
  , ("y", .v1 (y.map (fun q => (q : ℝ))))
  , ("mean", .v1 (normalize_features Xr).2.1)
  , ("std", .v1 (normalize_features Xr).2.2)
  , ("feature_cols", .vs FEATURE_COLS)
  , ("seq_len", .vi [(SEQ_LEN : ℤ)]) ]

/-- `main` of `build_dataset.py` down to the archive it writes:
preprocess, build sequences, normalize, serialize.  `none` when
`build_sequences` raises, or when the tensor contains NaN (the real
tensor model cannot represent NaN; `preprocess` output never contains
any under the imputation precondition). -/
noncomputable def mainArchive (df : DF) : Option (List (String × NpValue)) :=
  match build_sequences (preprocess df) with
  | .error _ => none
  | .ok (X, y) => if okT3 X then some (archiveOf (realT3 X) y) else none

/-- Computable success predicate for `mainArchive`. -/
def builderSucceeds (df : DF) : Bool :=
  match build_sequences (preprocess df) with
  | .error _ => false
  | .ok (X, _) => okT3 X

/-!
## Helper lemmas
-/

lemma filterMap_eq_map_of_forall {α β : Type _} (g : α → Option β) (h : α → β) :
    ∀ l : List α, (∀ a ∈ l, g a = some (h a)) → l.filterMap g = l.map h
  | [], _ => rfl
  | a :: l, H => by
    rw [List.filterMap_cons, H a (by simp), List.map_cons,
        filterMap_eq_map_of_forall g h l (fun b hb => H b (by simp [hb]))]

lemma getD_map_of_lt {α β : Type _} (f : α → β) (l : List α) (i : ℕ) (h : i < l.length)
    (d : β) (d' : α) : (l.map f).getD i d = f (l.getD i d') := by
  rw [List.getD_eq_getElem _ _ (by simpa using h), List.getD_eq_getElem _ _ h,
      List.getElem_map]

lemma getD_range_of_lt (n i : ℕ) (h : i < n) (d : ℕ) : (List.range n).getD i d = i := by
  rw [List.getD_eq_getElem _ _ (by simpa using h)]
  exact List.getElem_range _ _

lemma drop_take_three {α : Type _} (l : List α) (s : ℕ) (h : s + 3 ≤ l.length) (d : α) :
    (l.drop s).take 3 = [l.getD s d, l.getD (s + 1) d, l.getD (s + 2) d] := by
  have h0 : s < l.length := by omega
  have h1 : s + 1 < l.length := by omega
  have h2 : s + 2 < l.length := by omega
  rw [List.drop_eq_getElem_cons h0, List.drop_eq_getElem_cons h1,
      List.drop_eq_getElem_cons h2, List.getD_eq_getElem _ _ h0,
      List.getD_eq_getElem _ _ h1, List.getD_eq_getElem _ _ h2]
  rfl

/-!
## The computed form of `build_sequences` on NaN-free targets
-/

lemma length_sortedRows (df : DF) : (sortedRows df).length = df.rows.length :=
  List.length_insertionSort _ _

lemma mem_sortedRows {df : DF} {r : Row} (h : r ∈ sortedRows df) : r ∈ df.rows :=
  (List.mem_insertionSort _).mp h

lemma length_targetVec (df : DF) : (targetVec df).length = df.rows.length := by
  simp [targetVec, length_sortedRows]

lemma length_featMatrix (df : DF) : (featMatrix df).length = df.rows.length := by
  simp [featMatrix, length_sortedRows]

/-- On a dataframe whose target column has no NaN and more rows than
`SEQ_LEN`, `build_sequences` succeeds and its loop skips nothing: the
result is the full list of windows with the following target values. -/
lemma build_sequences_eq (df : DF)
    (hnan : ∀ r ∈ df.rows, (cellNum (r TARGET_COL)).isSome = true)
    (h3 : SEQ_LEN < df.rows.length) :
    build_sequences df = .ok
      ((List.range (df.rows.length - SEQ_LEN)).map
         (fun s => ((featMatrix df).drop s).take SEQ_LEN),
       (List.range (df.rows.length - SEQ_LEN)).map
         (fun s => ((targetVec df).getD (s + SEQ_LEN) none).getD 0)) := by
  have hlen : (sortedRows df).length = df.rows.length := length_sortedRows df
  have hnan' : ∀ r ∈ sortedRows df, (cellNum (r TARGET_COL)).isSome = true :=
    fun r hr => hnan r (mem_sortedRows hr)
  have htv : (targetVec df).length = df.rows.length := length_targetVec df
  have hsample : ∀ s ∈ List.range (df.rows.length - SEQ_LEN),
      sampleAt (featMatrix df) (targetVec df) s =
        some (((featMatrix df).drop s).take SEQ_LEN,
              ((targetVec df).getD (s + SEQ_LEN) none).getD 0) := by
    intro s hs
    rw [List.mem_range] at hs
    have hidx : s + SEQ_LEN < (sortedRows df).length := by rw [hlen]; omega
    have hval : (targetVec df).getD (s + SEQ_LEN) none =
        cellNum (((sortedRows df).getD (s + SEQ_LEN) default) TARGET_COL) :=
      getD_map_of_lt _ _ _ hidx none default
    have hmem : (sortedRows df).getD (s + SEQ_LEN) default ∈ sortedRows df := by
      rw [List.getD_eq_getElem _ _ hidx]
      exact List.getElem_mem hidx
    have hsome : ((targetVec df).getD (s + SEQ_LEN) none).isSome = true := by
      rw [hval]; exact hnan' _ hmem
    obtain ⟨y, hy⟩ := Option.isSome_iff_exists.mp hsome
    unfold sampleAt
    rw [hy]
    rfl
  have hne : ((List.range (df.rows.length - SEQ_LEN)).map
      (fun s => (((featMatrix df).drop s).take SEQ_LEN,
        ((targetVec df).getD (s + SEQ_LEN) none).getD 0))).isEmpty = false := by
    rw [Bool.eq_false_iff, ne_eq, List.isEmpty_iff, List.map_eq_nil_iff,
      List.range_eq_nil]
    omega
  unfold build_sequences
  rw [if_neg (by omega : ¬ (sortedRows df).length ≤ SEQ_LEN), hlen,
      filterMap_eq_map_of_forall _ _ _ hsample]
  simp only [hne, Bool.false_eq_true, if_false, List.map_map]
  rfl

lemma some_getD_of_isSome {α : Type _} {o : Option α} (h : o.isSome = true) (d : α) :
    some (o.getD d) = o := by
  cases o with
  | none => cases h
  | some a => rfl

/-- **C1**: Sliding-window construction: for every preprocessed (hence
sorted) dataframe with `n > 3` rows and no NaN target values,
`build_sequences` produces, for every start index `s < n - 3`, one
sample whose input is the feature rows `s`, `s+1`, `s+2` (window length
3, stride 1) and whose label is the target value of row `s + 3`. -/
theorem c1_sliding_window (df : DF)
    (hsorted : List.Sorted (RowLe (sort_cols_of df.cols)) df.rows)
    (hnan : ∀ r ∈ df.rows, (cellNum (r TARGET_COL)).isSome = true)
    (h3 : 3 < df.rows.length) :
    ∃ X y, build_sequences df = Except.ok (X, y) ∧
      X.length = df.rows.length - 3 ∧
      ∀ s, s < df.rows.length - 3 →
        X.getD s [] =
          [featRow (df.rows.getD s default), featRow (df.rows.getD (s + 1) default),
           featRow (df.rows.getD (s + 2) default)] ∧
        some (y.getD s 0) = cellNum ((df.rows.getD (s + 3) default) TARGET_COL) := by
  have hsrt : sortedRows df = df.rows := hsorted.insertionSort_eq
  have hb := build_sequences_eq df hnan (by simp only [SEQ_LEN]; omega)
  simp only [SEQ_LEN] at hb
  refine ⟨_, _, hb, by simp, ?_⟩
  intro s hs
  have hfm : (featMatrix df) = df.rows.map featRow := by rw [featMatrix, hsrt]
  have hfml : (featMatrix df).length = df.rows.length := by simp [hfm]
  constructor
  · rw [getD_map_of_lt _ _ s (by simpa using hs) [] 0, getD_range_of_lt _ _ hs 0, hfm,
        drop_take_three _ _ (by simp; omega) (featRow default),
        getD_map_of_lt featRow _ s (by omega) _ default,
        getD_map_of_lt featRow _ (s + 1) (by omega) _ default,
        getD_map_of_lt featRow _ (s + 2) (by omega) _ default]
  · rw [getD_map_of_lt _ _ s (by simpa using hs) (0 : ℚ) 0, getD_range_of_lt _ _ hs 0]
    have htl : s + 3 < (sortedRows df).length := by rw [length_sortedRows]; omega
    have hval : (targetVec df).getD (s + 3) none =
        cellNum (((sortedRows df).getD (s + 3) default) TARGET_COL) :=
      getD_map_of_lt _ _ _ htl none default
    rw [hval, hsrt]
    refine some_getD_of_isSome ?_ 0
    refine hnan _ ?_
    rw [List.getD_eq_getElem _ _ (by omega)]
    exact List.getElem_mem _

/-- Witness for C1 at a concrete four-row dataframe. -/
theorem c1_sliding_window_witness :
    (List.Sorted (RowLe (sort_cols_of testDF.cols)) testDF.rows ∧
     (∀ r ∈ testDF.rows, (cellNum (r TARGET_COL)).isSome = true) ∧
     3 < testDF.rows.length) ∧
    (∃ X y, build_sequences testDF = Except.ok (X, y) ∧
      X.length = testDF.rows.length - 3 ∧
      ∀ s, s < testDF.rows.length - 3 →
        X.getD s [] =
          [featRow (testDF.rows.getD s default), featRow (testDF.rows.getD (s + 1) default),
           featRow (testDF.rows.getD (s + 2) default)] ∧
        some (y.getD s 0) = cellNum ((testDF.rows.getD (s + 3) default) TARGET_COL)) :=
  ⟨⟨by decide, by decide, by decide⟩,
   c1_sliding_window testDF (by decide) (by decide) (by decide)⟩

/-- **C9**: Sample-count invariant: on a preprocessed dataframe with
`n > 3` rows and no NaN targets, `build_sequences` returns `X` of shape
`(n - 3, 3, 19)` — 19 being the length of `FEATURE_COLS` — and `y` of
length `n - 3`; in particular `X` and `y` have the same number of
samples. -/
theorem c9_shape (df : DF)
    (hnan : ∀ r ∈ df.rows, (cellNum (r TARGET_COL)).isSome = true)
    (h3 : 3 < df.rows.length) :
    FEATURE_COLS.length = 19 ∧
    ∃ X y, build_sequences df = Except.ok (X, y) ∧
      X.length = df.rows.length - 3 ∧ y.length = df.rows.length - 3 ∧
      X.length = y.length ∧
      ∀ w ∈ X, w.length = 3 ∧ ∀ fr ∈ w, fr.length = 19 := by
  refine ⟨rfl, ?_⟩
  have hb := build_sequences_eq df hnan (by simp only [SEQ_LEN]; omega)
  simp only [SEQ_LEN] at hb
  refine ⟨_, _, hb, by simp, by simp, by simp, ?_⟩
  intro w hw
  obtain ⟨s, hs, rfl⟩ := List.mem_map.mp hw
  rw [List.mem_range] at hs
  have hfml : (featMatrix df).length = df.rows.length := length_featMatrix df
  constructor
  · rw [List.length_take, List.length_drop]
    omega
  · intro fr hfr
    have hmem : fr ∈ featMatrix df :=
      List.mem_of_mem_drop (List.mem_of_mem_take hfr)
    obtain ⟨r, _, rfl⟩ := List.mem_map.mp hmem
    simp only [featRow, List.length_map]
    rfl

/-- Witness for C9 at a concrete four-row dataframe. -/
theorem c9_shape_witness :
    ((∀ r ∈ testDF.rows, (cellNum (r TARGET_COL)).isSome = true) ∧
     3 < testDF.rows.length) ∧
    (FEATURE_COLS.length = 19 ∧
     ∃ X y, build_sequences testDF = Except.ok (X, y) ∧
       X.length = testDF.rows.length - 3 ∧ y.length = testDF.rows.length - 3 ∧
       X.length = y.length ∧
       ∀ w ∈ X, w.length = 3 ∧ ∀ fr ∈ w, fr.length = 19) :=
  ⟨⟨by decide, by decide⟩, c9_shape testDF (by decide) (by decide)⟩

/-- **C6**: Failure condition (raises-iff): for every dataframe whose
target column contains no NaN, `build_sequences` raises (returns an
error that propagates) if and only if the number of rows is at most
`SEQ_LEN = 3`; with more than 3 rows it returns normally with at least
one sample. -/
theorem c6_raises_iff (df : DF)
    (hnan : ∀ r ∈ df.rows, (cellNum (r TARGET_COL)).isSome = true) :
    ((∃ e, build_sequences df = Except.error e) ↔ df.rows.length ≤ 3) ∧
    (3 < df.rows.length →
      ∃ X y, build_sequences df = Except.ok (X, y) ∧ 0 < X.length) := by
  constructor
  · constructor
    · rintro ⟨e, he⟩
      by_contra hgt
      push_neg at hgt
      have hb := build_sequences_eq df hnan (by simp only [SEQ_LEN]; omega)
      rw [hb] at he
      cases he
    · intro hle
      refine ⟨"Not enough rows for seq_len", ?_⟩
      unfold build_sequences
      rw [if_pos (by rw [length_sortedRows]; simp only [SEQ_LEN]; omega)]
  · intro h3
    have hb := build_sequences_eq df hnan (by simp only [SEQ_LEN]; omega)
    simp only [SEQ_LEN] at hb
    exact ⟨_, _, hb, by simp; omega⟩

/-- Witness for C6 at a concrete four-row dataframe. -/
theorem c6_raises_iff_witness :
    (∀ r ∈ testDF.rows, (cellNum (r TARGET_COL)).isSome = true) ∧
    (((∃ e, build_sequences testDF = Except.error e) ↔ testDF.rows.length ≤ 3) ∧
     (3 < testDF.rows.length →
       ∃ X y, build_sequences testDF = Except.ok (X, y) ∧ 0 < X.length)) :=
  ⟨by decide, c6_raises_iff testDF (by decide)⟩

/-- **C10**: Unreachable empty-result branch: with more than 3 rows and
no NaN targets, the loop in `build_sequences` never skips a window (the
sample list has one entry per start index), the sample list is
non-empty, and the second `ValueError` branch is unreachable. -/
theorem c10_unreachable_branch (df : DF)
    (h3 : 3 < df.rows.length)
    (hnan : ∀ r ∈ df.rows, (cellNum (r TARGET_COL)).isSome = true) :
    ∃ X y, build_sequences df = Except.ok (X, y) ∧
      X.length = df.rows.length - 3 ∧ X ≠ [] ∧
      build_sequences df ≠
        Except.error "No sequences built (this should not happen now)." := by
  have hb := build_sequences_eq df hnan (by simp only [SEQ_LEN]; omega)
  simp only [SEQ_LEN] at hb
  refine ⟨_, _, hb, by simp, ?_, by rw [hb]; simp⟩
  rw [ne_eq, List.map_eq_nil_iff, List.range_eq_nil]
  omega

/-- Witness for C10 at a concrete four-row dataframe. -/
theorem c10_unreachable_branch_witness :
    (3 < testDF.rows.length ∧
     (∀ r ∈ testDF.rows, (cellNum (r TARGET_COL)).isSome = true)) ∧
    (∃ X y, build_sequences testDF = Except.ok (X, y) ∧
      X.length = testDF.rows.length - 3 ∧ X ≠ [] ∧
      build_sequences testDF ≠
        Except.error "No sequences built (this should not happen now).") :=
  ⟨⟨by decide, by decide⟩, c10_unreachable_branch testDF (by decide) (by decide)⟩

/-!
## Order lemmas for the sort key
-/

lemma vle_total (a b : Val) : vle a b = true ∨ vle b a = true := by
  cases a with
  | num qa => cases b with
    | num qb => simpa [vle] using le_total qa qb
    | str _ => simp [vle]
  | str sa => cases b with
    | num _ => simp [vle]
    | str sb => simpa [vle] using le_total sa sb

lemma vle_trans {a b c : Val} (h1 : vle a b = true) (h2 : vle b c = true) :
    vle a c = true := by
  cases a <;> cases b <;> cases c <;>
    simp_all [vle] <;> exact le_trans h1 h2

lemma vle_antisymm {a b : Val} (h1 : vle a b = true) (h2 : vle b a = true) :
    a = b := by
  cases a with
  | num qa => cases b with
    | num qb =>
      simp only [vle, decide_eq_true_eq] at h1 h2
      exact congrArg Val.num (le_antisymm h1 h2)
    | str _ => cases h2
  | str sa => cases b with
    | num _ => cases h1
    | str sb =>
      simp only [vle, decide_eq_true_eq] at h1 h2
      exact congrArg Val.str (le_antisymm h1 h2)

lemma cle_total (a b : Cell) : cle a b = true ∨ cle b a = true := by
  cases a with
  | none => cases b <;> simp [cle]
  | some va => cases b with
    | none => simp [cle]
    | some vb => simpa [cle] using vle_total va vb

lemma cle_trans {a b c : Cell} (h1 : cle a b = true) (h2 : cle b c = true) :
    cle a c = true := by
  cases a <;> cases b <;> cases c <;> simp_all [cle]
  exact vle_trans h1 h2

lemma cle_antisymm {a b : Cell} (h1 : cle a b = true) (h2 : cle b a = true) :
    a = b := by
  cases a <;> cases b <;> simp_all [cle]
  exact vle_antisymm h1 h2

lemma cellListLe_total : ∀ x y : List Cell, cellListLe x y = true ∨ cellListLe y x = true
  | [], y => by cases y <;> simp [cellListLe]
  | _ :: _, [] => by simp [cellListLe]
  | a :: as, b :: bs => by
    by_cases hab : a = b
    · subst hab
      simpa [cellListLe] using cellListLe_total as bs
    · have hba : ¬ b = a := fun h => hab h.symm
      simp only [cellListLe, if_neg hab, if_neg hba]
      exact cle_total a b

lemma cellListLe_trans : ∀ {x y z : List Cell},
    cellListLe x y = true → cellListLe y z = true → cellListLe x z = true
  | [], _, _, _, _ => by cases ‹List Cell› <;> simp [cellListLe]
  | a :: as, [], z, h1, _ => by cases h1
  | a :: as, b :: bs, [], _, h2 => by cases h2
  | a :: as, b :: bs, c :: cs, h1, h2 => by
    by_cases hab : a = b <;> by_cases hbc : b = c
    · subst hab; subst hbc
      simp only [cellListLe, if_pos rfl] at h1 h2 ⊢
      exact cellListLe_trans h1 h2
    · subst hab
      simp only [cellListLe, if_pos rfl, if_neg hbc] at h1 h2 ⊢
      exact h2
    · subst hbc
      simp only [cellListLe, if_neg hab] at h1 ⊢
      exact h1
    · simp only [cellListLe, if_neg hab, if_neg hbc] at h1 h2
      by_cases hac : a = c
      · subst hac
        exact absurd (cle_antisymm h1 h2) hab
      · simp only [cellListLe, if_neg hac]
        exact cle_trans h1 h2

lemma rowLe_total (sc : List String) (a b : Row) : RowLe sc a b ∨ RowLe sc b a :=
  cellListLe_total (keyOf sc a) (keyOf sc b)

lemma rowLe_trans (sc : List String) {a b c : Row}
    (h1 : RowLe sc a b) (h2 : RowLe sc b c) : RowLe sc a c :=
  cellListLe_trans h1 h2

/-!
## Lemmas about the `preprocess` stages
-/

lemma mem_dedupFirstGo :
    ∀ (l : List String) (seen : List String) (x : String),
      x ∈ dedupFirstGo seen l ↔ x ∈ l ∧ x ∉ seen
  | [], seen, x => by simp [dedupFirstGo]
  | a :: l, seen, x => by
    rw [dedupFirstGo]
    by_cases ha : a ∈ seen
    · rw [if_pos ha, mem_dedupFirstGo l seen x]
      constructor
      · rintro ⟨h1, h2⟩
        exact ⟨List.mem_cons.mpr (Or.inr h1), h2⟩
      · rintro ⟨h1, h2⟩
        rcases List.mem_cons.mp h1 with h1 | h1
        · exact absurd (h1 ▸ ha) h2
        · exact ⟨h1, h2⟩
    · rw [if_neg ha]
      constructor
      · intro h
        rcases List.mem_cons.mp h with h | h
        · exact ⟨List.mem_cons.mpr (Or.inl h), h ▸ ha⟩
        · obtain ⟨h1, h2⟩ := (mem_dedupFirstGo l (a :: seen) x).mp h
          exact ⟨List.mem_cons.mpr (Or.inr h1),
            fun hx => h2 (List.mem_cons.mpr (Or.inr hx))⟩
      · rintro ⟨h1, h2⟩
        rcases List.mem_cons.mp h1 with h1 | h1
        · exact List.mem_cons.mpr (Or.inl h1)
        · by_cases hxa : x = a
          · exact List.mem_cons.mpr (Or.inl hxa)
          · refine List.mem_cons.mpr (Or.inr ((mem_dedupFirstGo l (a :: seen) x).mpr
              ⟨h1, fun hx => ?_⟩))
            rcases List.mem_cons.mp hx with hx | hx
            · exact hxa hx
            · exact h2 hx

lemma mem_dedupFirst (l : List String) (x : String) : x ∈ dedupFirst l ↔ x ∈ l := by
  rw [dedupFirst, mem_dedupFirstGo]
  simp

lemma nodup_dedupFirstGo :
    ∀ (l : List String) (seen : List String), (dedupFirstGo seen l).Nodup
  | [], seen => by simp [dedupFirstGo]
  | a :: l, seen => by
    rw [dedupFirstGo]
    by_cases ha : a ∈ seen
    · rw [if_pos ha]
      exact nodup_dedupFirstGo l seen
    · rw [if_neg ha, List.nodup_cons]
      refine ⟨fun hmem => ?_, nodup_dedupFirstGo l (a :: seen)⟩
      have h2 := ((mem_dedupFirstGo l (a :: seen) a).mp hmem).2
      exact h2 (List.mem_cons.mpr (Or.inl rfl))

lemma nodup_dedupFirst (l : List String) : (dedupFirst l).Nodup :=
  nodup_dedupFirstGo l []

lemma applyCols_eq (f : String → Cell → Cell) :
    ∀ (cs : List String), cs.Nodup → ∀ (rows : List Row),
      applyCols f cs rows = rows.map (fun r c => if c ∈ cs then f c (r c) else r c)
  | [], _, rows => by
    have hfun : (fun (r : Row) (c : String) =>
        if c ∈ ([] : List String) then f c (r c) else r c) = fun r => r := by
      funext r c
      simp
    rw [applyCols, List.foldl_nil, hfun]
    exact (List.map_id rows).symm
  | c₀ :: cs, hnd, rows => by
    have heq : applyCols f (c₀ :: cs) rows
        = applyCols f cs (rows.map (fun r => updateRow r c₀ (f c₀ (r c₀)))) := rfl
    rw [heq, applyCols_eq f cs (List.nodup_cons.mp hnd).2, List.map_map]
    apply List.map_congr_left
    intro r _
    funext c
    have hc₀ : c₀ ∉ cs := (List.nodup_cons.mp hnd).1
    simp only [Function.comp_apply, updateRow]
    by_cases hmem : c ∈ cs
    · have hne : c ≠ c₀ := fun h => hc₀ (h ▸ hmem)
      simp [hmem, hne, List.mem_cons]
    · by_cases hceq : c = c₀
      · subst hceq
        simp [hmem, List.mem_cons]
      · simp [hmem, hceq, List.mem_cons]

lemma cellNum_coerceCell (v : Cell) : cellNum (coerceCell v) = cellNum v := by
  rcases v with _ | v
  · rfl
  · cases v <;> rfl

lemma medianQ_isSome {l : List ℚ} (h : l ≠ []) : (medianQ l).isSome = true := by
  have hlen : (l.insertionSort (· ≤ ·)).length = l.length :=
    List.length_insertionSort _ _
  have hne : l.length ≠ 0 := fun h0 => h (List.length_eq_zero.mp h0)
  rw [medianQ]
  simp only [hlen]
  rw [if_neg hne]
  split <;> simp

lemma coerce_rows_eq (df : DF) :
    (coerceStage (selectCopy df)).rows =
      df.rows.map (fun r c => if c ∈ numeric_cols_of (keep_cols df)
        then coerceCell (r c) else r c) := by
  have hN : (numeric_cols_of (keep_cols df)).Nodup := nodup_dedupFirst _
  show applyCols _ (numeric_cols_of (keep_cols df)) df.rows = _
  rw [applyCols_eq _ _ hN]

lemma colMedian_coerced (df : DF) {c : String}
    (hc : c ∈ numeric_cols_of (keep_cols df)) :
    colMedian (df.rows.map (fun r c' => if c' ∈ numeric_cols_of (keep_cols df)
      then coerceCell (r c') else r c')) c = colMedian df.rows c := by
  rw [colMedian, colMedian, List.filterMap_map]
  have hfun : ((fun r : Row => cellNum (r c)) ∘
      (fun (r : Row) (c' : String) => if c' ∈ numeric_cols_of (keep_cols df)
        then coerceCell (r c') else r c')) = fun r : Row => cellNum (r c) := by
    funext r
    simp only [Function.comp_apply, if_pos hc, cellNum_coerceCell]
  rw [hfun]

lemma fill_rows_eq (df : DF) :
    (fillStage (coerceStage (selectCopy df))).rows =
      df.rows.map (fun r c =>
        if c ∈ numeric_cols_of (keep_cols df) then
          fillCell (colMedian df.rows c) (coerceCell (r c))
        else r c) := by
  have hN : (numeric_cols_of (keep_cols df)).Nodup := nodup_dedupFirst _
  show applyCols _ (numeric_cols_of (keep_cols df)) (coerceStage (selectCopy df)).rows = _
  rw [applyCols_eq _ _ hN, coerce_rows_eq, List.map_map]
  have hcomp : ((fun (r : Row) (c : String) =>
        if c ∈ numeric_cols_of (keep_cols df) then
          fillCell (colMedian (df.rows.map (fun r c' =>
            if c' ∈ numeric_cols_of (keep_cols df) then coerceCell (r c') else r c')) c)
            (r c)
        else r c) ∘
      (fun (r : Row) (c : String) =>
        if c ∈ numeric_cols_of (keep_cols df) then coerceCell (r c) else r c)) =
      fun (r : Row) (c : String) =>
        if c ∈ numeric_cols_of (keep_cols df) then
          fillCell (colMedian df.rows c) (coerceCell (r c))
        else r c := by
    funext r c
    by_cases hc : c ∈ numeric_cols_of (keep_cols df)
    · simp only [Function.comp_apply, if_pos hc, colMedian_coerced df hc]
    · simp only [Function.comp_apply, if_neg hc]
  rw [hcomp]

lemma preprocess_rows_eq (df : DF) :
    (preprocess df).rows =
      ((df.rows.map (fun r c =>
          if c ∈ numeric_cols_of (keep_cols df) then
            fillCell (colMedian df.rows c) (coerceCell (r c))
          else r c)).filter
        (fun r => (required_for_row (keep_cols df)).all (fun c => (r c).isSome))).insertionSort
        (RowLe (sort_cols_of (keep_cols df))) := by
  show ((fillStage (coerceStage (selectCopy df))).rows.filter _).insertionSort _ = _
  rw [fill_rows_eq]
  rfl

/-- **C5**: Cleaning/imputation/sorting postcondition: for every input
dataframe in which each present numeric column has at least one value
convertible to a number, `preprocess` returns a dataframe that (1)
contains no missing value in any present numeric column — missing or
non-numeric entries having been replaced by that column's median, as the
row characterization states — (2) contains no row missing `ClientID`,
`CycleNumber`, or the target, and (3) is sorted by `ClientID` then
`CycleNumber`. -/
theorem c5_preprocess (df : DF)
    (hconv : ∀ c ∈ numeric_cols_of (keep_cols df),
      ∃ r ∈ df.rows, (cellNum (r c)).isSome = true) :
    (∀ r ∈ (preprocess df).rows, ∀ c ∈ numeric_cols_of (keep_cols df),
        (cellNum (r c)).isSome = true) ∧
    (∀ r' ∈ (preprocess df).rows, ∃ r ∈ df.rows, ∀ c : String,
        r' c = if c ∈ numeric_cols_of (keep_cols df) then
            fillCell (colMedian df.rows c) (coerceCell (r c))
          else r c) ∧
    (∀ r ∈ (preprocess df).rows, ∀ c ∈ required_for_row (keep_cols df),
        (r c).isSome = true) ∧
    List.Sorted (RowLe (sort_cols_of (keep_cols df))) (preprocess df).rows := by
  have hrows := preprocess_rows_eq df
  have hmem : ∀ r' ∈ (preprocess df).rows, ∃ r ∈ df.rows, r' = (fun c =>
      if c ∈ numeric_cols_of (keep_cols df) then
        fillCell (colMedian df.rows c) (coerceCell (r c))
      else r c) := by
    intro r' h
    rw [hrows] at h
    have h2 := (List.mem_insertionSort _).mp h
    have h3 := (List.mem_filter.mp h2).1
    obtain ⟨r, hr, hEq⟩ := List.mem_map.mp h3
    exact ⟨r, hr, hEq.symm⟩
  have hmedSome : ∀ c ∈ numeric_cols_of (keep_cols df),
      (colMedian df.rows c).isSome = true := by
    intro c hc
    obtain ⟨r, hr, hsome⟩ := hconv c hc
    obtain ⟨q, hq⟩ := Option.isSome_iff_exists.mp hsome
    have hne : df.rows.filterMap (fun r => cellNum (r c)) ≠ [] :=
      List.ne_nil_of_mem (List.mem_filterMap.mpr ⟨r, hr, hq⟩)
    exact medianQ_isSome hne
  refine ⟨?_, ?_, ?_, ?_⟩
  · intro r' hr' c hc
    obtain ⟨r, _, rfl⟩ := hmem r' hr'
    simp only [if_pos hc]
    obtain ⟨m, hm⟩ := Option.isSome_iff_exists.mp (hmedSome c hc)
    rw [hm]
    rcases hcell : r c with _ | v
    · rfl
    · cases v with
      | num q => rfl
      | str s => rfl
  · intro r' hr'
    obtain ⟨r, hr, rfl⟩ := hmem r' hr'
    exact ⟨r, hr, fun c => rfl⟩
  · intro r' hr' c hc
    rw [hrows] at hr'
    have h2 := (List.mem_insertionSort _).mp hr'
    have h3 := (List.mem_filter.mp h2).2
    exact List.all_eq_true.mp h3 c hc
  · rw [hrows]
    haveI : IsTotal Row (RowLe (sort_cols_of (keep_cols df))) := ⟨rowLe_total _⟩
    haveI : IsTrans Row (RowLe (sort_cols_of (keep_cols df))) :=
      ⟨fun _ _ _ => rowLe_trans _⟩
    exact List.sorted_insertionSort _ _

/-- A row with a missing `BMI` and a non-numeric `Age`. -/
def messyRow : Row := fun c =>
  if c = "BMI" then none
  else if c = "Age" then some (.str "not a number")
  else some (.num 1)

/-- A dataframe with a missing and a non-numeric entry. -/
def messyDF : DF :=
  { cols := [USER_COL, CYCLE_NUM_COL] ++ FEATURE_COLS
  , rows := [messyRow, constRow 2, constRow 3] }

/-- Witness for C5 at a concrete dataframe with a missing and a
non-numeric entry. -/
theorem c5_preprocess_witness :
    (∀ c ∈ numeric_cols_of (keep_cols messyDF),
      ∃ r ∈ messyDF.rows, (cellNum (r c)).isSome = true) ∧
    ((∀ r ∈ (preprocess messyDF).rows, ∀ c ∈ numeric_cols_of (keep_cols messyDF),
        (cellNum (r c)).isSome = true) ∧
     (∀ r' ∈ (preprocess messyDF).rows, ∃ r ∈ messyDF.rows, ∀ c : String,
        r' c = if c ∈ numeric_cols_of (keep_cols messyDF) then
            fillCell (colMedian messyDF.rows c) (coerceCell (r c))
          else r c) ∧
     (∀ r ∈ (preprocess messyDF).rows, ∀ c ∈ required_for_row (keep_cols messyDF),
        (r c).isSome = true) ∧
     List.Sorted (RowLe (sort_cols_of (keep_cols messyDF))) (preprocess messyDF).rows) :=
  ⟨by decide, c5_preprocess messyDF (by decide)⟩

lemma getD_append_length {α : Type _} (l : List α) (a : α) (d : α) :
    (l ++ [a]).getD l.length d = a := by
  rw [List.getD_eq_getElem _ _ (by simp)]
  exact List.getElem_concat_length _ _ _ rfl _

lemma getD_set_length {α : Type _} (l : List α) (j : ℕ) (x : α) (d : α) (hj : j < l.length) :
    (l.set j x).getD j d = x := by
  rw [List.getD_eq_getElem _ _ (by simpa using hj)]
  exact List.getElem_set_self _

lemma getElem?_append_lt {α : Type _} (l l' : List α) (i : ℕ) (h : i < l.length) :
    (l ++ l')[i]? = l[i]? := by
  rw [List.getElem?_append]
  exact if_pos h

/-- **C7**: No mutation of inputs: `preprocess` operates on a copy and
leaves the caller's dataframe unchanged — in the heap model, the object
at the argument's index is the same after the call, and the result
object is exactly the pure `preprocess` of the argument; and the
builder's only on-disk write is the processed archive, the raw CSV path
is never written. -/
theorem c7_no_mutation (h : List DF) (i : ℕ) (hi : i < h.length) :
    ((preprocessHeap h i).1[i]? = h[i]?) ∧
    ((preprocessHeap h i).1.getD (preprocessHeap h i).2 default
       = preprocess (h.getD i default)) ∧
    writesOf mainTrace = [OUT_PATH] ∧
    RAW_PATH ∉ writesOf mainTrace := by
  refine ⟨?_, ?_, rfl, by decide⟩
  · simp only [preprocessHeap]
    rw [getElem?_append_lt _ _ i (by simp; omega),
        getElem?_append_lt _ _ i (by simp; omega),
        List.getElem?_set_ne (by simp; omega),
        List.getElem?_set_ne (by omega),
        getElem?_append_lt _ _ i hi]
  · simp only [preprocessHeap]
    rw [getD_append_length,
        getD_append_length,
        getD_set_length _ _ _ _ (by simp),
        getD_set_length _ _ _ _ (by simp),
        getD_append_length]
    rfl

/-- Witness for C7 at a concrete one-dataframe heap. -/
theorem c7_no_mutation_witness :
    0 < ([testDF] : List DF).length ∧
    (((preprocessHeap [testDF] 0).1[0]? = ([testDF] : List DF)[0]?) ∧
     ((preprocessHeap [testDF] 0).1.getD (preprocessHeap [testDF] 0).2 default
        = preprocess (([testDF] : List DF).getD 0 default)) ∧
     writesOf mainTrace = [OUT_PATH] ∧
     RAW_PATH ∉ writesOf mainTrace) :=
  ⟨by decide, c7_no_mutation [testDF] 0 (by decide)⟩

/-!
## Lemmas about `normalize_features`
-/

/-- The tensor `X` has shape `(N, T, F)`. -/
def Rect3 (N T F : ℕ) (X : List (List (List ℝ))) : Prop :=
  X.length = N ∧ ∀ p ∈ X, p.length = T ∧ ∀ r ∈ p, r.length = F

lemma chunksOf_flatten {α : Type} (T : ℕ) (hT : 0 < T) :
    ∀ (X : List (List α)), (∀ p ∈ X, p.length = T) → chunksOf T X.flatten = X
  | [], _ => by rw [chunksOf]; simp
  | p :: X, hX => by
    have hp : p.length = T := hX p (List.mem_cons.mpr (Or.inl rfl))
    have hflat : (p :: X).flatten = p ++ X.flatten := rfl
    rw [hflat, chunksOf]
    have hcond : ¬ (T = 0 ∨ (p ++ X.flatten).length = 0) := by
      simp only [List.length_append]
      omega
    rw [dif_neg hcond, List.take_left' hp, List.drop_left' hp,
        chunksOf_flatten T hT X (fun q hq => hX q (List.mem_cons.mpr (Or.inr hq)))]

lemma length_flatten_rect {N T : ℕ} {X : List (List (List ℝ))}
    (hlen : X.length = N) (hT : ∀ p ∈ X, p.length = T) :
    X.flatten.length = N * T := by
  rw [List.length_flatten]
  subst hlen
  induction X with
  | nil => simp
  | cons p X ih =>
    simp only [List.map_cons, List.sum_cons, List.length_cons]
    rw [hT p (List.mem_cons.mpr (Or.inl rfl)),
        ih (fun q hq => hT q (List.mem_cons.mpr (Or.inr hq)))]
    ring

/-- The per-row normalization function applied by `normalize_features`
to every row of the flattened tensor. -/
noncomputable def rowNorm (mean std : List ℝ) (r : List ℝ) : List ℝ :=
  (r.zip (mean.zip std)).map (fun p => (p.1 - p.2.1) / p.2.2)

lemma normalize_features_eq (X : List (List (List ℝ))) {N T F : ℕ}
    (hrect : Rect3 N T F X) (hT : 0 < T) :
    (normalize_features X).1 =
      X.map (fun p => p.map (rowNorm (normalize_features X).2.1 (normalize_features X).2.2)) := by
  obtain ⟨hN, hPl⟩ := hrect
  show chunksOf (X.headD []).length (X.flatten.map _) = _
  have hT0 : (X.headD []).length = T ∨ X = [] := by
    cases X with
    | nil => exact Or.inr rfl
    | cons p X =>
      exact Or.inl (hPl p (List.mem_cons.mpr (Or.inl rfl))).1
  rcases hT0 with hT0 | hT0
  · rw [hT0, List.map_flatten,
        chunksOf_flatten T hT _ (by
          intro q hq
          obtain ⟨p, hp, rfl⟩ := List.mem_map.mp hq
          simp [(hPl p hp).1])]
    rfl
  · subst hT0
    rw [chunksOf]
    simp

lemma rowNorm_getD (mean std : List ℝ) :
    ∀ (r : List ℝ) (f : ℕ), f < r.length → f < mean.length → f < std.length →
      (rowNorm mean std r).getD f 0 =
        (r.getD f 0 - mean.getD f 0) / std.getD f 0 := by
  suffices h : ∀ (r ms ss : List ℝ) (f : ℕ), f < r.length → f < ms.length → f < ss.length →
      ((r.zip (ms.zip ss)).map (fun p => (p.1 - p.2.1) / p.2.2)).getD f 0 =
        (r.getD f 0 - ms.getD f 0) / ss.getD f 0 by
    intro r f hf hm hs
    exact h r mean std f hf hm hs
  intro r
  induction r with
  | nil => intro ms ss f hf; simp at hf
  | cons a r ih =>
    intro ms ss f hf hm hs
    cases ms with
    | nil => simp at hm
    | cons m ms =>
      cases ss with
      | nil => simp at hs
      | cons s ss =>
        cases f with
        | zero => simp [List.zip_cons_cons]
        | succ f =>
          simp only [List.zip_cons_cons, List.map_cons, List.getD_cons_succ]
          exact ih ms ss f (by simpa using hf) (by simpa using hm) (by simpa using hs)

lemma normalize_mean_length (X : List (List (List ℝ))) :
    (normalize_features X).2.1.length = ((X.headD []).headD []).length := by
  show ((List.range _).map _).length = _
  simp

lemma normalize_std_length (X : List (List (List ℝ))) :
    (normalize_features X).2.2.length = ((X.headD []).headD []).length := by
  show (((List.range _).map _).map _).length = _
  simp

lemma normalize_mean_getD (X : List (List (List ℝ))) {F : ℕ} (f : ℕ)
    (hf : f < F) (hhead : ((X.headD []).headD []).length = F) :
    (normalize_features X).2.1.getD f 0 = listMean (colOf X.flatten f) := by
  show ((List.range ((X.headD []).headD []).length).map _).getD f 0 = _
  rw [hhead, getD_map_of_lt _ _ f (by simpa using hf) _ 0, getD_range_of_lt _ _ hf 0]

lemma normalize_std_getD (X : List (List (List ℝ))) {F : ℕ} (f : ℕ)
    (hf : f < F) (hhead : ((X.headD []).headD []).length = F) :
    (normalize_features X).2.2.getD f 0 =
      (if listStd (colOf X.flatten f) = 0 then 1 else listStd (colOf X.flatten f)) := by
  show (((List.range ((X.headD []).headD []).length).map _).map _).getD f 0 = _
  rw [List.map_map, hhead, getD_map_of_lt _ _ f (by simpa using hf) _ 0,
      getD_range_of_lt _ _ hf 0]
  rfl

instance (N T F : ℕ) (X : List (List (List ℝ))) : Decidable (Rect3 N T F X) := by
  unfold Rect3; infer_instance

lemma rect_head_len {N T F : ℕ} {X : List (List (List ℝ))}
    (hrect : Rect3 N T F X) (hN : 0 < N) (hT : 0 < T) :
    ((X.headD []).headD []).length = F := by
  obtain ⟨hlen, hPl⟩ := hrect
  cases X with
  | nil => rw [← hlen] at hN; simp at hN
  | cons p X =>
    obtain ⟨hpl, hrows⟩ := hPl p (List.mem_cons.mpr (Or.inl rfl))
    cases p with
    | nil => rw [← hpl] at hT; simp at hT
    | cons r p =>
      exact hrows r (List.mem_cons.mpr (Or.inl rfl))

lemma rect_getD_mem {N T F : ℕ} {X : List (List (List ℝ))}
    (hrect : Rect3 N T F X) {i t : ℕ} (hi : i < N) (ht : t < T) :
    (X.getD i []).getD t [] ∈ X.flatten ∧
    (X.getD i []).length = T ∧ ((X.getD i []).getD t []).length = F := by
  obtain ⟨hlen, hPl⟩ := hrect
  have hi' : i < X.length := by omega
  have hpmem : X.getD i [] ∈ X := by
    rw [List.getD_eq_getElem _ _ hi']
    exact List.getElem_mem hi'
  obtain ⟨hplen, hrows⟩ := hPl _ hpmem
  have ht' : t < (X.getD i []).length := by omega
  have hrmem : (X.getD i []).getD t [] ∈ X.getD i [] := by
    rw [List.getD_eq_getElem _ _ ht']
    exact List.getElem_mem ht'
  exact ⟨List.mem_flatten.mpr ⟨_, hpmem, hrmem⟩, hplen, hrows _ hrmem⟩

/-- The central access lemma: every entry of the normalized tensor is
the z-score of the corresponding input entry, through the
flatten/normalize/reshape round trip. -/
lemma normalize_entry (X : List (List (List ℝ))) {N T F : ℕ}
    (hrect : Rect3 N T F X) {i t f : ℕ} (hi : i < N) (ht : t < T) (hf : f < F) :
    (((normalize_features X).1.getD i []).getD t []).getD f 0 =
      (((X.getD i []).getD t []).getD f 0 - (normalize_features X).2.1.getD f 0) /
        (normalize_features X).2.2.getD f 0 := by
  have hT : 0 < T := by omega
  have hN : 0 < N := by omega
  have hhead := rect_head_len hrect hN hT
  obtain ⟨hflat, hplen, hrlen⟩ := rect_getD_mem hrect hi ht
  rw [normalize_features_eq X hrect hT,
      getD_map_of_lt _ X i (by rw [hrect.1]; omega) [] [],
      getD_map_of_lt _ _ t (by rw [hplen]; omega) [] [],
      rowNorm_getD _ _ _ f (by rw [hrlen]; omega)
        (by rw [normalize_mean_length, hhead]; omega)
        (by rw [normalize_std_length, hhead]; omega)]

lemma sum_zero_of_nonneg :
    ∀ (l : List ℝ), (∀ x ∈ l, 0 ≤ x) → l.sum = 0 → ∀ x ∈ l, x = 0
  | [], _, _, x, hx => by simp at hx
  | a :: l, hpos, hsum, x, hx => by
    rw [List.sum_cons] at hsum
    have ha : 0 ≤ a := hpos a (List.mem_cons.mpr (Or.inl rfl))
    have hl : 0 ≤ l.sum :=
      List.sum_nonneg (fun y hy => hpos y (List.mem_cons.mpr (Or.inr hy)))
    have ha0 : a = 0 := by linarith
    have hl0 : l.sum = 0 := by linarith
    rcases List.mem_cons.mp hx with hx | hx
    · exact hx.trans ha0
    · exact sum_zero_of_nonneg l
        (fun y hy => hpos y (List.mem_cons.mpr (Or.inr hy))) hl0 x hx

lemma listVar_zero_eq_mean {l : List ℝ} (hne : l ≠ []) (h : listVar l = 0) :
    ∀ x ∈ l, x = listMean l := by
  intro x hx
  have hlen : (l.length : ℝ) ≠ 0 := by
    simp only [ne_eq, Nat.cast_eq_zero, List.length_eq_zero]
    exact hne
  rw [listVar, div_eq_zero_iff] at h
  rcases h with h | h
  · have hsq : ∀ y ∈ l.map (fun v => (v - listMean l) ^ 2), (0 : ℝ) ≤ y := by
      intro y hy
      obtain ⟨v, _, rfl⟩ := List.mem_map.mp hy
      positivity
    have := sum_zero_of_nonneg _ hsq h ((x - listMean l) ^ 2)
      (List.mem_map.mpr ⟨x, hx, rfl⟩)
    have hsub : x - listMean l = 0 := by
      exact pow_eq_zero_iff (by norm_num) |>.mp this
    linarith
  · exact absurd h hlen

lemma listVar_nonneg (l : List ℝ) : 0 ≤ listVar l := by
  rw [listVar]
  apply div_nonneg
  · apply List.sum_nonneg
    intro y hy
    obtain ⟨v, _, rfl⟩ := List.mem_map.mp hy
    positivity
  · positivity

/-- **C2**: Normalization: for every `(N, T, F)` tensor `X`,
`normalize_features` returns `(X_norm, mean, std)` where `mean` and
`std` are the per-feature mean and standard deviation of the tensor
flattened to `(N*T, F)`, every entry of `std` that equals exactly 0 is
replaced by 1, and `X_norm[i,t,f] = (X[i,t,f] - mean[f]) / std[f]`
(with the clamped `std`). -/
theorem c2_normalize_features (X : List (List (List ℝ))) (N T F : ℕ)
    (hrect : Rect3 N T F X) (i t f : ℕ) (hi : i < N) (ht : t < T) (hf : f < F) :
    (normalize_features X).2.1.length = F ∧
    (normalize_features X).2.2.length = F ∧
    (normalize_features X).2.1.getD f 0 =
      (X.flatten.map (fun r => r.getD f 0)).sum / (N * T) ∧
    (listStd (colOf X.flatten f) = 0 → (normalize_features X).2.2.getD f 0 = 1) ∧
    (listStd (colOf X.flatten f) ≠ 0 →
      (normalize_features X).2.2.getD f 0 = listStd (colOf X.flatten f)) ∧
    (((normalize_features X).1.getD i []).getD t []).getD f 0 =
      (((X.getD i []).getD t []).getD f 0 - (normalize_features X).2.1.getD f 0) /
        (normalize_features X).2.2.getD f 0 := by
  have hT : 0 < T := by omega
  have hN : 0 < N := by omega
  have hhead := rect_head_len hrect hN hT
  have hflatlen : X.flatten.length = N * T :=
    length_flatten_rect hrect.1 (fun p hp => (hrect.2 p hp).1)
  refine ⟨by rw [normalize_mean_length, hhead],
          by rw [normalize_std_length, hhead], ?_, ?_, ?_,
          normalize_entry X hrect hi ht hf⟩
  · rw [normalize_mean_getD X f hf hhead, listMean, colOf]
    rw [List.length_map, hflatlen]
    push_cast
    rfl
  · intro h0
    rw [normalize_std_getD X f hf hhead, if_pos h0]
  · intro h0
    rw [normalize_std_getD X f hf hhead, if_neg h0]

/-- A concrete `(1, 2, 2)` tensor: feature 0 takes values 0 and 2,
feature 1 is constant (zero variance). -/
def testX : List (List (List ℝ)) := [[[0, 5], [2, 5]]]

/-- Witness for C2 at a concrete tensor. -/
theorem c2_normalize_features_witness :
    (Rect3 1 2 2 testX ∧ 0 < 1 ∧ 1 < 2 ∧ 0 < 2) ∧
    ((normalize_features testX).2.1.length = 2 ∧
     (normalize_features testX).2.2.length = 2 ∧
     (normalize_features testX).2.1.getD 0 0 =
       (testX.flatten.map (fun r => r.getD 0 0)).sum / (((1 : ℕ) : ℝ) * ((2 : ℕ) : ℝ)) ∧
     (listStd (colOf testX.flatten 0) = 0 → (normalize_features testX).2.2.getD 0 0 = 1) ∧
     (listStd (colOf testX.flatten 0) ≠ 0 →
       (normalize_features testX).2.2.getD 0 0 = listStd (colOf testX.flatten 0)) ∧
     (((normalize_features testX).1.getD 0 []).getD 1 []).getD 0 0 =
       (((testX.getD 0 []).getD 1 []).getD 0 0 - (normalize_features testX).2.1.getD 0 0) /
         (normalize_features testX).2.2.getD 0 0) :=
  ⟨⟨by decide, by decide, by decide, by decide⟩,
   c2_normalize_features testX 1 2 2 (by decide) 0 1 0 (by decide) (by decide) (by decide)⟩

/-- **C8**: Normalization round-trip: for every `(N, T, F)` tensor `X`,
if `(X_norm, mean, std) = normalize_features X` then
`X_norm * std + mean = X` entrywise in exact arithmetic; this holds also
for zero-variance features (the clamped scale 1 is still invertible),
and such a feature normalizes to all zeros. -/
theorem c8_normalize_roundtrip (X : List (List (List ℝ))) (N T F : ℕ)
    (hrect : Rect3 N T F X) (i t f : ℕ) (hi : i < N) (ht : t < T) (hf : f < F) :
    (((normalize_features X).1.getD i []).getD t []).getD f 0 *
        (normalize_features X).2.2.getD f 0 + (normalize_features X).2.1.getD f 0 =
      ((X.getD i []).getD t []).getD f 0 ∧
    (listVar (colOf X.flatten f) = 0 →
      (((normalize_features X).1.getD i []).getD t []).getD f 0 = 0) := by
  have hT : 0 < T := by omega
  have hN : 0 < N := by omega
  have hhead := rect_head_len hrect hN hT
  have hstd : (normalize_features X).2.2.getD f 0 =
      (if listStd (colOf X.flatten f) = 0 then 1 else listStd (colOf X.flatten f)) :=
    normalize_std_getD X f hf hhead
  have hstd_ne : (normalize_features X).2.2.getD f 0 ≠ 0 := by
    rw [hstd]
    split
    · norm_num
    · assumption
  constructor
  · rw [normalize_entry X hrect hi ht hf, div_mul_cancel₀ _ hstd_ne, sub_add_cancel]
  · intro hvar
    obtain ⟨hflat, hplen, hrlen⟩ := rect_getD_mem hrect hi ht
    have hvmem : ((X.getD i []).getD t []).getD f 0 ∈ colOf X.flatten f :=
      List.mem_map.mpr ⟨_, hflat, rfl⟩
    have hne : colOf X.flatten f ≠ [] := List.ne_nil_of_mem hvmem
    have hveq : ((X.getD i []).getD t []).getD f 0 = listMean (colOf X.flatten f) :=
      listVar_zero_eq_mean hne hvar _ hvmem
    have hmean : (normalize_features X).2.1.getD f 0 = listMean (colOf X.flatten f) :=
      normalize_mean_getD X f hf hhead
    rw [normalize_entry X hrect hi ht hf, hmean, hveq, sub_self, zero_div]

/-- Witness for C8 at a concrete tensor. -/
theorem c8_normalize_roundtrip_witness :
    (Rect3 1 2 2 testX ∧ 0 < 1 ∧ 1 < 2 ∧ 1 < 2) ∧
    ((((normalize_features testX).1.getD 0 []).getD 1 []).getD 1 0 *
        (normalize_features testX).2.2.getD 1 0 + (normalize_features testX).2.1.getD 1 0 =
      ((testX.getD 0 []).getD 1 []).getD 1 0 ∧
     (listVar (colOf testX.flatten 1) = 0 →
      (((normalize_features testX).1.getD 0 []).getD 1 []).getD 1 0 = 0)) :=
  ⟨⟨by decide, by decide, by decide, by decide⟩,
   c8_normalize_roundtrip testX 1 2 2 (by decide) 0 1 1 (by decide) (by decide) (by decide)⟩

/-- **C4**: Archive compatibility: the archive written by the dataset
builder contains exactly the entries `X` (the normalized windowed
tensor), `y` (the labels), `mean` and `std` (the statistics returned by
`normalize_features`), `feature_cols`, and `seq_len`; every key the
trainer's `load_data` reads is present in the archive the builder
writes. -/
theorem c4_archive_keys (df : DF) (h : builderSucceeds df = true) :
    ∃ X y, build_sequences (preprocess df) = Except.ok (X, y) ∧
      okT3 X = true ∧
      mainArchive df = some (archiveOf (realT3 X) y) ∧
      (archiveOf (realT3 X) y).map Prod.fst =
        ["X", "y", "mean", "std", "feature_cols", "seq_len"] ∧
      (archiveOf (realT3 X) y).map Prod.fst = trainer_read_keys ∧
      ∀ k ∈ trainer_read_keys, ((archiveOf (realT3 X) y).lookup k).isSome = true := by
  rcases hb : build_sequences (preprocess df) with e | p
  · rw [builderSucceeds, hb] at h
    cases h
  · obtain ⟨X, y⟩ := p
    have hok : okT3 X = true := by
      rw [builderSucceeds, hb] at h
      exact h
    refine ⟨X, y, rfl, hok, ?_, rfl, rfl, ?_⟩
    · rw [mainArchive, hb]
      simp [hok]
    · intro k hk
      simp only [trainer_read_keys, List.mem_cons, List.not_mem_nil, or_false] at hk
      rcases hk with rfl | rfl | rfl | rfl | rfl | rfl <;> rfl

/-- Witness for C4 at a concrete four-row dataframe. -/
theorem c4_archive_keys_witness :
    builderSucceeds testDF = true ∧
    (∃ X y, build_sequences (preprocess testDF) = Except.ok (X, y) ∧
      okT3 X = true ∧
      mainArchive testDF = some (archiveOf (realT3 X) y) ∧
      (archiveOf (realT3 X) y).map Prod.fst =
        ["X", "y", "mean", "std", "feature_cols", "seq_len"] ∧
      (archiveOf (realT3 X) y).map Prod.fst = trainer_read_keys ∧
      ∀ k ∈ trainer_read_keys, ((archiveOf (realT3 X) y).lookup k).isSome = true) :=
  ⟨by decide, c4_archive_keys testDF (by decide)⟩

/-!
## The trainer's split boundaries diverge from the exact floors
-/

lemma roundHalfEven_of_lt {q : ℚ} {z : ℤ} (hfloor : ⌊q⌋ = z)
    (hlt : q - z < 1 / 2) : roundHalfEven q = z := by
  rw [roundHalfEven, hfloor, if_pos hlt]

lemma roundDouble_pos_eq {q : ℚ} (hq : 0 < q) :
    roundDouble q = (roundHalfEven (q * (2 : ℚ) ^ (52 - Int.log 2 q)) : ℚ) *
      (2 : ℚ) ^ (Int.log 2 q - 52) := by
  rw [roundDouble, if_neg (ne_of_gt hq), if_neg (not_lt.mpr hq.le), abs_of_pos hq]

lemma log_7_10 : Int.log 2 ((7 : ℚ) / 10) = -1 := by
  rw [Int.log_of_right_le_one 2 (by norm_num)]
  have h1 : ((7 : ℚ) / 10)⁻¹ = 10 / 7 := by norm_num
  have h2 : ⌈(10 / 7 : ℚ)⌉₊ = 2 := by
    rw [Nat.ceil_eq_iff (by norm_num)]
    norm_num
  rw [h1, h2, Nat.clog_eq_one (by norm_num) (by norm_num)]
  norm_num

lemma float0_7_eq : float0_7 = 3152519739159347 / 4503599627370496 := by
  rw [float0_7, roundDouble_pos_eq (by norm_num), log_7_10]
  have h1 : ((7 : ℚ) / 10) * (2 : ℚ) ^ ((52 : ℤ) - (-1)) = 31525197391593472 / 5 := by
    norm_num
  rw [h1, roundHalfEven_of_lt (z := 6305039478318694)
        (by rw [Int.floor_eq_iff] <;> norm_num) (by norm_num)]
  norm_num

lemma log_q90 : Int.log 2 ((3152519739159347 : ℚ) / 4503599627370496 * 90) = 5 := by
  rw [Int.log_of_one_le_right 2 (by norm_num)]
  have h1 : ⌊(3152519739159347 : ℚ) / 4503599627370496 * 90⌋₊ = 62 := by
    rw [Nat.floor_eq_iff (by norm_num)]
    norm_num
  have h2 : Nat.log 2 62 = 5 :=
    Nat.log_eq_of_pow_le_of_lt_pow (by norm_num) (by norm_num)
  rw [h1, h2]
  norm_num

lemma n_train_of_90 : n_train_of 90 = 62 := by
  rw [n_train_of, float0_7_eq]
  have h90 : ((90 : ℕ) : ℚ) = 90 := by norm_num
  rw [h90, roundDouble_pos_eq (by norm_num), log_q90]
  have h1 : (3152519739159347 : ℚ) / 4503599627370496 * 90 * (2 : ℚ) ^ ((52 : ℤ) - 5)
      = 141863388262170615 / 16 := by
    norm_num
  rw [h1, roundHalfEven_of_lt (z := 8866461766385663)
        (by rw [Int.floor_eq_iff] <;> norm_num) (by norm_num)]
  have h2 : ((8866461766385663 : ℤ) : ℚ) * (2 : ℚ) ^ ((5 : ℤ) - 52)
      = 8866461766385663 / 140737488355328 := by
    norm_num
  rw [h2]
  have h3 : ⌊(8866461766385663 : ℚ) / 140737488355328⌋ = 62 := by
    rw [Int.floor_eq_iff] <;> norm_num
  rw [h3]
  rfl

/-- Counterexample for C3 as stated: at an archive of `N = 90` samples
the code's training part is the first `int(0.7 * 90) = 62` samples,
while the exact floor the claim prescribes is `⌊0.7 * 90⌋ = 63`; the
two slices differ. -/
theorem c3_split_counterexample :
    n_train_of 90 = 62 ∧
    Int.toNat ⌊(7 / 10 : ℚ) * 90⌋ = 63 ∧
    (load_data_split (List.range 90) (List.range 90)).1.1 ≠
      (List.range 90).take (Int.toNat ⌊(7 / 10 : ℚ) * 90⌋) := by
  have hfl : ⌊(7 / 10 : ℚ) * 90⌋ = 63 := by
    rw [show (7 / 10 : ℚ) * 90 = ((63 : ℤ) : ℚ) by norm_num, Int.floor_intCast]
  refine ⟨n_train_of_90, by rw [hfl]; rfl, ?_⟩
  rw [hfl]
  intro hcontra
  have hlen := congrArg List.length hcontra
  simp only [load_data_split, List.length_take, List.length_range, n_train_of_90,
    Int.toNat_ofNat] at hlen
  omega

lemma take_drop_concat {α : Type} (l : List α) (a b : ℕ) :
    l.take a ++ ((l.drop a).take b ++ l.drop (a + b)) = l := by
  have h1 : l.drop (a + b) = (l.drop a).drop b := by
    rw [List.drop_drop, Nat.add_comm]
  rw [h1, List.take_append_drop, List.take_append_drop]

/-- C3 as amended: `load_data` splits `X` and `y` by position at the
boundaries `n_train = int(0.7 * n)` and `n_val = int(0.15 * n)`
computed in binary64 arithmetic (which can differ by one from the exact
floors); the three parts are the contiguous slices at those positions,
identical for `X` and `y`, their concatenation is the whole dataset,
and their lengths sum to `N`. -/
theorem c3_split_amended {α β : Type} (X : List α) (y : List β) :
    load_data_split X y =
      ((X.take (n_train_of X.length), y.take (n_train_of X.length)),
       ((X.drop (n_train_of X.length)).take (n_val_of X.length),
        (y.drop (n_train_of X.length)).take (n_val_of X.length)),
       (X.drop (n_train_of X.length + n_val_of X.length),
        y.drop (n_train_of X.length + n_val_of X.length))) ∧
    (load_data_split X y).1.1 ++
      ((load_data_split X y).2.1.1 ++ (load_data_split X y).2.2.1) = X ∧
    (load_data_split X y).1.2 ++
      ((load_data_split X y).2.1.2 ++ (load_data_split X y).2.2.2) = y ∧
    (load_data_split X y).1.1.length + (load_data_split X y).2.1.1.length +
      (load_data_split X y).2.2.1.length = X.length := by
  refine ⟨rfl, take_drop_concat X _ _, take_drop_concat y _ _, ?_⟩
  have := congrArg List.length (take_drop_concat X (n_train_of X.length) (n_val_of X.length))
  simp only [List.length_append, List.length_take, List.length_drop] at this
  simp only [load_data_split, List.length_take, List.length_drop]
  omega
